import Mathlib

/-!
Shallow embedding of the Grain128AEAD engine in
`src/Grain128AEAD/grain128AED.py`: the 128-bit LFSR/NFSR register pair,
the nonlinear combiner `h`, the pre-output function, the 320-clock
register setup, keystream generation with the gated authentication
accumulator, finalization, and the `encrypt` / `decrypt` / `get_tag`
facade.  Bytes are modelled as `Nat`, byte strings as `List Nat`,
registers as `Nat` masked to 128 bits exactly where the source masks.
-/

/-- `self.mask = (1 << 128) - 1`. -/
def mask128 : Nat := (1 <<< 128) - 1

/-- The mutable attributes of a `Grain128AEAD` object. -/
@[ext]
structure GrainState where
  key : List Nat
  iv : List Nat
  lfsr : Nat
  nfsr : Nat
  accum : Nat
  sr : Nat
deriving DecidableEq, Repr

/-- `bit = (src[i // 8] >> (i % 8)) & 1`: the LSB-first bit extraction the
source uses when loading the IV and the key. -/
def srcBit (src : List Nat) (i : Nat) : Nat :=
  ((src.getD (i / 8) 0) >>> (i % 8)) &&& 1

/-- `for i in range(n): reg |= bit << i`: the register-loading loops of
`initialize` (the IV loop with `n = 96`, the key loop with `n = 128`). -/
def loadBits (src : List Nat) (n r : Nat) : Nat :=
  (List.range n).foldl (fun acc i => acc ||| (srcBit src i <<< i)) r

/-- The loading phase of `initialize`: IV into LFSR bits 0..95, the
`((1 << 31) - 1) << 96` padding, key into NFSR bits 0..127. -/
def initLoad (s : GrainState) : GrainState :=
  let lfsr2 := loadBits s.iv 96 s.lfsr ||| (((1 <<< 31) - 1) <<< 96)
  let nfsr2 := loadBits s.key 128 s.nfsr
  { s with lfsr := lfsr2, nfsr := nfsr2 }

/-- `_compute_h`: the nonlinear combiner over LFSR taps
[2, 11, 20, 29, 38, 47, 56, 65] and NFSR taps [63, 95]. -/
def computeH (lfsr nfsr : Nat) : Nat :=
  let x0 := (lfsr >>> 2) &&& 1
  let x1 := (lfsr >>> 11) &&& 1
  let x2 := (lfsr >>> 20) &&& 1
  let x3 := (lfsr >>> 29) &&& 1
  let x4 := (lfsr >>> 38) &&& 1
  let x5 := (lfsr >>> 47) &&& 1
  let x6 := (lfsr >>> 56) &&& 1
  let x7 := (lfsr >>> 65) &&& 1
  let x8 := (nfsr >>> 63) &&& 1
  let x9 := (nfsr >>> 95) &&& 1
  ((x0 &&& x1) ^^^ (x2 &&& x3) ^^^ (x4 &&& x5) ^^^ (x6 &&& x7) ^^^ (x8 &&& x9) ^^^
    (x0 &&& x4 &&& x8) ^^^ (x1 &&& x5 &&& x9) ^^^ (x2 &&& x6 &&& x8) ^^^
    (x3 &&& x7 &&& x9) ^^^ (x4 &&& x5 &&& x6 &&& x7)) &&& 1

/-- `_get_pre_output`: `h` XOR parity of LFSR taps [8, 43, 55, 67, 68]
XOR parity of NFSR taps [5, 33, 67, 85]. -/
def getPreOutput (lfsr nfsr : Nat) : Nat :=
  let h := computeH lfsr nfsr
  let lfsrBits := [8, 43, 55, 67, 68].map fun i => (lfsr >>> i) &&& 1
  let nfsrBits := [5, 33, 67, 85].map fun i => (nfsr >>> i) &&& 1
  (h ^^^ (lfsrBits.sum % 2) ^^^ (nfsrBits.sum % 2)) &&& 1

/-- The register-update part of `_clock`: feedback computation, the
right-shift-and-insert of both registers, and the keystream bit computed
from the updated registers.  Returns `(lfsr', nfsr', ks_bit)`. -/
def clockRegs (lfsr nfsr : Nat) : Nat × Nat × Nat :=
  let lfsrBits := [0, 31, 46, 57, 89, 120, 127].map fun i => (lfsr >>> i) &&& 1
  let lfsrFb := lfsrBits.sum % 2
  let nfsrIndices := [0, 17, 19, 27, 34, 42, 46, 64, 70, 79, 87, 95, 99, 103, 106, 117, 121]
  let nonlinearPairs : List (Nat × Nat) :=
    [(0, 9), (14, 15), (21, 23), (24, 25), (36, 37), (40, 41), (48, 49), (50, 51),
     (52, 53), (55, 56), (57, 59), (60, 61), (66, 68), (69, 70), (72, 73), (74, 75),
     (76, 77), (78, 79), (82, 83), (84, 85), (86, 87), (91, 92), (93, 94), (95, 97),
     (98, 99), (101, 102), (103, 105), (106, 108), (109, 110), (111, 112), (113, 114),
     (115, 116), (117, 119)]
  let nfsrBits := nfsrIndices.map fun i => (nfsr >>> i) &&& 1
  let nonlinearTerms := nonlinearPairs.map fun p => (nfsr >>> p.1) &&& (nfsr >>> p.2) &&& 1
  let nfsrFb := (nfsrBits.sum % 2) ^^^ (nonlinearTerms.sum % 2) ^^^ (lfsrBits.getD 0 0)
  let lfsr2 := ((lfsr >>> 1) ||| (lfsrFb <<< 127)) &&& mask128
  let nfsr2 := ((nfsr >>> 1) ||| (nfsrFb <<< 127)) &&& mask128
  let h := computeH lfsr2 nfsr2
  let ksBit := (h ^^^ (nfsr2 &&& 1)) &&& 1
  (lfsr2, nfsr2, ksBit)

/-- `_clock(init)`: updates the registers via `clockRegs`; when neither in
initialization mode nor in the `_skip_auth` finalization mode
(`updateSr = true`), also shifts the fresh pre-output bit into `sr`.
Returns the new state and the keystream bit. -/
def clock (updateSr : Bool) (s : GrainState) : GrainState × Nat :=
  let r := clockRegs s.lfsr s.nfsr
  let sr2 := if updateSr then ((s.sr <<< 1) ||| getPreOutput r.1 r.2.1) &&& mask128 else s.sr
  ({ s with lfsr := r.1, nfsr := r.2.1, sr := sr2 }, r.2.2)

/-- One iteration of the warm-up loop of `initialize` without the
`i >= 192` tail: `ks_bit = self._clock(True)` followed by
`reg = ((reg << 1) | ks_bit) & mask` on both registers. -/
def blindClock (s : GrainState) : GrainState :=
  let p := clock false s
  let lfsr2 := ((p.1.lfsr <<< 1) ||| p.2) &&& mask128
  let nfsr2 := ((p.1.nfsr <<< 1) ||| p.2) &&& mask128
  { p.1 with lfsr := lfsr2, nfsr := nfsr2 }

/-- A full iteration of the warm-up loop of `initialize`, including the
`if i >= 192` shift of the pre-output bit into `sr`. -/
def initStep (s : GrainState) (i : Nat) : GrainState :=
  let s2 := blindClock s
  if 192 ≤ i then
    { s2 with sr := ((s2.sr <<< 1) ||| getPreOutput s2.lfsr s2.nfsr) &&& mask128 }
  else s2

/-- `initialize`: load IV, padding and key, then run the 320-iteration
warm-up loop. -/
def initRegisters (s : GrainState) : GrainState :=
  (List.range 320).foldl initStep (initLoad s)

/-- `reset`: zero all four mutable registers and re-run `initialize`. -/
def resetState (s : GrainState) : GrainState :=
  initRegisters { s with lfsr := 0, nfsr := 0, accum := 0, sr := 0 }

/-- `__init__`: length checks in source order, then state creation and
`initialize`.  A raised `ValueError` is modelled as `Except.error` with
the source's message; no state is built in that case. -/
def mkCipher (key iv : List Nat) : Except String GrainState :=
  if key.length ≠ 16 then Except.error "Key must be 16 bytes (128 bits)"
  else if iv.length ≠ 12 then Except.error "IV must be 12 bytes (96 bits)"
  else Except.ok (initRegisters { key := key, iv := iv, lfsr := 0, nfsr := 0, accum := 0, sr := 0 })

/-- The body of the associated-data absorption loops of `encrypt`,
`decrypt` and `get_tag`: `if bit: accum ^= sr` with the current `sr`,
then `self._clock()`. -/
def adBitStep (s : GrainState) (bit : Nat) : GrainState :=
  let s1 := if bit = 1 then { s with accum := s.accum ^^^ s.sr } else s
  (clock true s1).1

/-- `for i in range(8): bit = (byte >> i) & 1; ...`: absorbing one byte of
associated data (or of ciphertext, in `get_tag`), LSB first. -/
def absorbByte (s : GrainState) (byte : Nat) : GrainState :=
  (List.range 8).foldl (fun t i => adBitStep t ((byte >>> i) &&& 1)) s

/-- Absorbing a whole byte string via `absorbByte`. -/
def absorb (s : GrainState) (data : List Nat) : GrainState :=
  data.foldl absorbByte s

/-- The inner-loop body of `_generate_keystream`:
`byte = (byte << 1) | self._clock()` and then, when auth bits are
present, `bit = (auth_bits[i] >> j) & 1; if bit: accum ^= sr` — note the
gating XOR reads `sr` after the clock has advanced it. -/
def genBitStep (authByte : Option Nat) (acc : GrainState × Nat) (j : Nat) : GrainState × Nat :=
  let p := clock true acc.1
  let byte2 := (acc.2 <<< 1) ||| p.2
  match authByte with
  | none => (p.1, byte2)
  | some ab =>
    let bit := (ab >>> j) &&& 1
    let s2 := if bit = 1 then { p.1 with accum := p.1.accum ^^^ p.1.sr } else p.1
    (s2, byte2)

/-- The `for j in range(8)` inner loop of `_generate_keystream`:
produces one keystream byte (MSB-first) and performs the gated
accumulator updates for one input byte. -/
def genByte (s : GrainState) (authByte : Option Nat) : GrainState × Nat :=
  (List.range 8).foldl (genBitStep authByte) (s, 0)

/-- `_generate_keystream(length, auth_bits)`: the keystream bytes and the
updated state. -/
def generateKeystream (s : GrainState) (len : Nat) (authBits : Option (List Nat)) :
    GrainState × List Nat :=
  (List.range len).foldl
    (fun acc i =>
      let p := genByte acc.1 (authBits.map fun l => l.getD i 0)
      (p.1, acc.2 ++ [p.2]))
    (s, [])

/-- `bytes(a ^ b for a, b in zip(xs, ys))`. -/
def xorBytes (a b : List Nat) : List Nat :=
  (a.zip b).map fun p => p.1 ^^^ p.2

/-- One iteration of the 64-clock loop of `_finalize`: a `_clock()` call
in `_skip_auth` mode, the gated `accum ^= sr`, and
`tag_bits |= bit << i`. -/
def finalizeStep (acc : GrainState × Nat) (i : Nat) : GrainState × Nat :=
  let p := clock false acc.1
  let s2 := if p.2 = 1 then { p.1 with accum := p.1.accum ^^^ p.1.sr } else p.1
  (s2, acc.2 ||| (p.2 <<< i))

/-- The 64-clock loop of `_finalize`, returning the final state and the
raw `tag_bits` value. -/
def finalizeLoop (s : GrainState) : GrainState × Nat :=
  (List.range 64).foldl finalizeStep (s, 0)

/-- `struct.pack('<Q', x)`: 8 bytes, little-endian. -/
def packLE64 (x : Nat) : List Nat :=
  (List.range 8).map fun i => (x >>> (8 * i)) % 256

/-- `_finalize`: the 64-clock loop followed by
`struct.pack('<Q', tag_bits & ((1 << 64) - 1))`. -/
def finalizeTag (s : GrainState) : GrainState × List Nat :=
  let p := finalizeLoop s
  (p.1, packLE64 (p.2 &&& ((1 <<< 64) - 1)))

/-- `encrypt(plaintext, associated_data)`: reset, absorb AD, generate
keystream gated on the plaintext bits, XOR, finalize.  Returns the final
state, the ciphertext and the tag. -/
def encrypt (s : GrainState) (plaintext ad : List Nat) : GrainState × List Nat × List Nat :=
  let s1 := absorb (resetState s) ad
  let p := generateKeystream s1 plaintext.length (some plaintext)
  let ct := xorBytes plaintext p.2
  let q := finalizeTag p.1
  (q.1, ct, q.2)

/-- `decrypt(ciphertext, associated_data)`: reset, absorb AD, generate
keystream gated on the ciphertext bits, XOR, finalize.  Returns the final
state, the plaintext and the tag. -/
def decrypt (s : GrainState) (ciphertext ad : List Nat) : GrainState × List Nat × List Nat :=
  let s1 := absorb (resetState s) ad
  let p := generateKeystream s1 ciphertext.length (some ciphertext)
  let pt := xorBytes ciphertext p.2
  let q := finalizeTag p.1
  (q.1, pt, q.2)

/-- `get_tag(ciphertext, associated_data)`: reset, absorb AD, absorb the
ciphertext bytes through the same gated loop, finalize. -/
def get_tag (s : GrainState) (ciphertext ad : List Nat) : GrainState × List Nat :=
  let s1 := absorb (absorb (resetState s) ad) ciphertext
  finalizeTag s1

/-- The warm-up register update that the specification describes: the
keystream bit is XORed into the feedback bit just reinserted at bit 127
of each register (stated for comparison with `blindClock`, which is what
the source does). -/
def blindClockClaim (s : GrainState) : GrainState :=
  let p := clock false s
  let lfsr2 := p.1.lfsr ^^^ (p.2 <<< 127)
  let nfsr2 := p.1.nfsr ^^^ (p.2 <<< 127)
  { p.1 with lfsr := lfsr2, nfsr := nfsr2 }

/-- A concrete 16-byte key (bytes 0x00..0x0F). -/
def key0 : List Nat := [0, 1, 2, 3, 4, 5, 6, 7, 8, 9, 10, 11, 12, 13, 14, 15]

/-- A concrete 12-byte IV (bytes 0x00..0x0B). -/
def iv0 : List Nat := [0, 1, 2, 3, 4, 5, 6, 7, 8, 9, 10, 11]

/-- A fresh, not yet warmed-up state carrying `key0` and `iv0`. -/
def s0 : GrainState :=
  { key := key0, iv := iv0, lfsr := 0, nfsr := 0, accum := 0, sr := 0 }

/-- The register/auth-shift-register components of a state: every part of
the state that feeds back into clocking (the accumulator never does). -/
def core (s : GrainState) : Nat × Nat × Nat := (s.lfsr, s.nfsr, s.sr)

/-- A slice of the warm-up loop of `initRegisters`: iterations
`a, a+1, ..., a+n-1`. -/
def warmFrom (a n : Nat) (s : GrainState) : GrainState :=
  (List.range' a n).foldl initStep s

/-- The state reached after `initLoad` on a zeroed state with `key0` and
`iv0` (value computed once; proved equal to `initLoad s0` below). -/
def il0 : GrainState :=
  { key := key0, iv := iv0,
    lfsr := 170141183384657536233032304109457375488,
    nfsr := 20011376718272490338853433276725592320,
    accum := 0, sr := 0 }

/-- The state after the first 256 warm-up iterations on `il0`: the
registers are untouched and `sr` holds the 64 pre-output bits collected
by iterations 192..255. -/
def w4st : GrainState :=
  { key := key0, iv := iv0,
    lfsr := 170141183384657536233032304109457375488,
    nfsr := 20011376718272490338853433276725592320,
    accum := 0, sr := 18446744073709551615 }

/-- The state after a full `resetState` of `s0` (proved below): the 320
warm-up clocks leave both registers exactly as `initLoad` left them, and
`sr` ends as 128 one-bits. -/
def rs0 : GrainState :=
  { key := key0, iv := iv0,
    lfsr := 170141183384657536233032304109457375488,
    nfsr := 20011376718272490338853433276725592320,
    accum := 0, sr := 340282366920938463463374607431768211455 }

/-- States reachable from construction with the given key and IV by any
sequence of `encrypt`, `decrypt` and `get_tag` calls. -/
inductive Reachable (key iv : List Nat) : GrainState → Prop where
  | base (s : GrainState) : mkCipher key iv = Except.ok s → Reachable key iv s
  | enc (s : GrainState) (p ad : List Nat) :
      Reachable key iv s → Reachable key iv (encrypt s p ad).1
  | dec (s : GrainState) (c ad : List Nat) :
      Reachable key iv s → Reachable key iv (decrypt s c ad).1
  | tag (s : GrainState) (c ad : List Nat) :
      Reachable key iv s → Reachable key iv (get_tag s c ad).1

/-! ## Small unfolding and projection lemmas -/

theorem mask128_eq : mask128 = 2 ^ 128 - 1 := by
  norm_num [mask128, Nat.shiftLeft_eq]

theorem masked_lt (x : Nat) : x &&& mask128 < 2 ^ 128 := by
  rw [mask128_eq, Nat.and_pow_two_sub_one_eq_mod]
  exact Nat.mod_lt _ (by positivity)

theorem and_one_lt (x : Nat) : x &&& 1 < 2 := by
  rw [Nat.and_one_is_mod]
  exact Nat.mod_lt _ (by norm_num)

theorem clock_lfsr (b : Bool) (s : GrainState) :
    (clock b s).1.lfsr = (clockRegs s.lfsr s.nfsr).1 := rfl

theorem clock_nfsr (b : Bool) (s : GrainState) :
    (clock b s).1.nfsr = (clockRegs s.lfsr s.nfsr).2.1 := rfl

theorem clock_ks (b : Bool) (s : GrainState) :
    (clock b s).2 = (clockRegs s.lfsr s.nfsr).2.2 := rfl

theorem clock_sr (b : Bool) (s : GrainState) :
    (clock b s).1.sr =
      if b then
        ((s.sr <<< 1) |||
          getPreOutput (clockRegs s.lfsr s.nfsr).1 (clockRegs s.lfsr s.nfsr).2.1) &&& mask128
      else s.sr := rfl

theorem clock_accum (b : Bool) (s : GrainState) : (clock b s).1.accum = s.accum := rfl

theorem clock_key (b : Bool) (s : GrainState) : (clock b s).1.key = s.key := rfl

theorem clock_iv (b : Bool) (s : GrainState) : (clock b s).1.iv = s.iv := rfl

theorem get_tag_eq (s : GrainState) (c ad : List Nat) :
    get_tag s c ad = finalizeTag (absorb (absorb (resetState s) ad) c) := rfl

theorem encrypt_fst (s : GrainState) (p ad : List Nat) :
    (encrypt s p ad).1 =
      (finalizeLoop (generateKeystream (absorb (resetState s) ad) p.length (some p)).1).1 := rfl

theorem decrypt_fst (s : GrainState) (c ad : List Nat) :
    (decrypt s c ad).1 =
      (finalizeLoop (generateKeystream (absorb (resetState s) ad) c.length (some c)).1).1 := rfl

theorem get_tag_fst (s : GrainState) (c ad : List Nat) :
    (get_tag s c ad).1 = (finalizeLoop (absorb (absorb (resetState s) ad) c)).1 := rfl

theorem finalizeTag_snd (s : GrainState) :
    (finalizeTag s).2 = packLE64 ((finalizeLoop s).2 &&& ((1 <<< 64) - 1)) := rfl

/-! ## The warm-up loop evaluated in stages at the concrete `key0`/`iv0` -/

theorem warm_split (a m n : Nat) (s : GrainState) :
    warmFrom a (n + m) s = warmFrom (a + m) n (warmFrom a m s) := by
  rw [warmFrom, warmFrom, warmFrom, ← List.range'_append_1, List.foldl_append]

set_option maxRecDepth 4000 in
theorem il0_eq : initLoad s0 = il0 := by
  apply GrainState.ext <;> decide

set_option maxRecDepth 4000 in
theorem warm_stage1 : warmFrom 0 64 il0 = il0 := by
  apply GrainState.ext <;> decide

set_option maxRecDepth 4000 in
theorem warm_stage2 : warmFrom 64 64 il0 = il0 := by
  apply GrainState.ext <;> decide

set_option maxRecDepth 4000 in
theorem warm_stage3 : warmFrom 128 64 il0 = il0 := by
  apply GrainState.ext <;> decide

set_option maxRecDepth 4000 in
theorem warm_stage4 : warmFrom 192 64 il0 = w4st := by
  apply GrainState.ext <;> decide

set_option maxRecDepth 4000 in
theorem warm_stage5 : warmFrom 256 64 w4st = rs0 := by
  apply GrainState.ext <;> decide

theorem rs0_eq : resetState s0 = rs0 := by
  have hz : ({ s0 with lfsr := 0, nfsr := 0, accum := 0, sr := 0 } : GrainState) = s0 := rfl
  have h0 : resetState s0 = warmFrom 0 320 (initLoad s0) := by
    simp only [resetState, initRegisters, warmFrom, List.range_eq_range', hz]
  rw [h0, il0_eq]
  rw [show (320 : Nat) = 256 + 64 from rfl, warm_split, warm_stage1]
  norm_num
  rw [show (256 : Nat) = 192 + 64 from rfl, warm_split, warm_stage2]
  norm_num
  rw [show (192 : Nat) = 128 + 64 from rfl, warm_split, warm_stage3]
  norm_num
  rw [show (128 : Nat) = 64 + 64 from rfl, warm_split, warm_stage4]
  norm_num
  exact warm_stage5

/-! ## Core congruence: the accumulator gating never feeds back into the
registers, `sr`, the keystream, or the tag bits -/

theorem core_eq_iff {t u : GrainState} :
    core t = core u ↔ (t.lfsr = u.lfsr ∧ t.nfsr = u.nfsr ∧ t.sr = u.sr) := by
  simp [core, Prod.ext_iff]

theorem core_accum_update (s : GrainState) (a : Nat) :
    core { s with accum := a } = core s := rfl

theorem core_if_accum (c : Prop) [Decidable c] (s : GrainState) (a : Nat) :
    core (if c then { s with accum := a } else s) = core s := by
  split <;> rfl

theorem clock_congr (b : Bool) {t u : GrainState} (h : core t = core u) :
    core (clock b t).1 = core (clock b u).1 ∧ (clock b t).2 = (clock b u).2 := by
  obtain ⟨h1, h2, h3⟩ := core_eq_iff.mp h
  constructor
  · apply core_eq_iff.mpr
    refine ⟨?_, ?_, ?_⟩
    · rw [clock_lfsr, clock_lfsr, h1, h2]
    · rw [clock_nfsr, clock_nfsr, h1, h2]
    · rw [clock_sr, clock_sr, h1, h2, h3]
  · rw [clock_ks, clock_ks, h1, h2]

theorem adBitStep_congr (b1 b2 : Nat) {t u : GrainState} (h : core t = core u) :
    core (adBitStep t b1) = core (adBitStep u b2) := by
  unfold adBitStep
  exact (clock_congr true (((core_if_accum _ t _).trans h).trans (core_if_accum _ u _).symm)).1

theorem adFold_congr (js : List Nat) (b1 b2 : Nat) :
    ∀ {t u : GrainState}, core t = core u →
      core (js.foldl (fun s i => adBitStep s ((b1 >>> i) &&& 1)) t) =
        core (js.foldl (fun s i => adBitStep s ((b2 >>> i) &&& 1)) u) := by
  induction js with
  | nil => intro t u h; exact h
  | cons j js ih => intro t u h; exact ih (adBitStep_congr _ _ h)

theorem absorbByte_congr (b1 b2 : Nat) {t u : GrainState} (h : core t = core u) :
    core (absorbByte t b1) = core (absorbByte u b2) :=
  adFold_congr (List.range 8) b1 b2 h

theorem absorb_congr : ∀ (d1 d2 : List Nat), d1.length = d2.length →
    ∀ {t u : GrainState}, core t = core u → core (absorb t d1) = core (absorb u d2) := by
  intro d1
  induction d1 with
  | nil =>
    intro d2 hlen t u h
    cases d2 with
    | nil => exact h
    | cons c cs => simp at hlen
  | cons b bs ih =>
    intro d2 hlen t u h
    cases d2 with
    | nil => simp at hlen
    | cons c cs =>
      exact ih cs (by simpa using hlen) (absorbByte_congr b c h)

theorem genBitStep_congr (a b : Option Nat) (j : Nat) (p q : GrainState × Nat)
    (h1 : core p.1 = core q.1) (h2 : p.2 = q.2) :
    core (genBitStep a p j).1 = core (genBitStep b q j).1 ∧
      (genBitStep a p j).2 = (genBitStep b q j).2 := by
  have hc := clock_congr true h1
  unfold genBitStep
  cases a <;> cases b <;>
    simp only [core_if_accum, hc.1, hc.2, h2] <;> exact ⟨by trivial, by trivial⟩

theorem genFold_congr (js : List Nat) (a b : Option Nat) :
    ∀ (p q : GrainState × Nat), core p.1 = core q.1 → p.2 = q.2 →
      core ((js.foldl (genBitStep a) p).1) = core ((js.foldl (genBitStep b) q).1) ∧
        (js.foldl (genBitStep a) p).2 = (js.foldl (genBitStep b) q).2 := by
  induction js with
  | nil => intro p q h1 h2; exact ⟨h1, h2⟩
  | cons j js ih =>
    intro p q h1 h2
    have hs := genBitStep_congr a b j p q h1 h2
    exact ih _ _ hs.1 hs.2

theorem genByte_congr (a b : Option Nat) {t u : GrainState} (h : core t = core u) :
    core (genByte t a).1 = core (genByte u b).1 ∧ (genByte t a).2 = (genByte u b).2 :=
  genFold_congr (List.range 8) a b (t, 0) (u, 0) h rfl

theorem genKS_succ (t : GrainState) (n : Nat) (A : Option (List Nat)) :
    generateKeystream t (n + 1) A =
      ((genByte (generateKeystream t n A).1 (A.map fun l => l.getD n 0)).1,
        (generateKeystream t n A).2 ++
          [(genByte (generateKeystream t n A).1 (A.map fun l => l.getD n 0)).2]) := by
  unfold generateKeystream
  rw [List.range_succ, List.foldl_append]
  rfl

theorem genKS_len (t : GrainState) (n : Nat) (A : Option (List Nat)) :
    (generateKeystream t n A).2.length = n := by
  induction n with
  | zero => rfl
  | succ n ih => rw [genKS_succ]; simp [ih]

theorem genKS_congr (n : Nat) (A B : Option (List Nat)) {t u : GrainState}
    (h : core t = core u) :
    core (generateKeystream t n A).1 = core (generateKeystream u n B).1 ∧
      (generateKeystream t n A).2 = (generateKeystream u n B).2 := by
  induction n with
  | zero => exact ⟨h, rfl⟩
  | succ n ih =>
    rw [genKS_succ, genKS_succ]
    have hb := genByte_congr (A.map fun l => l.getD n 0) (B.map fun l => l.getD n 0) ih.1
    exact ⟨hb.1, by rw [ih.2, hb.2]⟩

theorem finalizeStep_congr (i : Nat) (p q : GrainState × Nat)
    (h1 : core p.1 = core q.1) (h2 : p.2 = q.2) :
    core (finalizeStep p i).1 = core (finalizeStep q i).1 ∧
      (finalizeStep p i).2 = (finalizeStep q i).2 := by
  have hc := clock_congr false h1
  unfold finalizeStep
  simp only [core_if_accum, hc.1, hc.2, h2]
  exact ⟨by trivial, by trivial⟩

theorem finFold_congr (js : List Nat) :
    ∀ (p q : GrainState × Nat), core p.1 = core q.1 → p.2 = q.2 →
      core ((js.foldl finalizeStep p).1) = core ((js.foldl finalizeStep q).1) ∧
        (js.foldl finalizeStep p).2 = (js.foldl finalizeStep q).2 := by
  induction js with
  | nil => intro p q h1 h2; exact ⟨h1, h2⟩
  | cons j js ih =>
    intro p q h1 h2
    have hs := finalizeStep_congr j p q h1 h2
    exact ih _ _ hs.1 hs.2

theorem finalizeLoop_congr {t u : GrainState} (h : core t = core u) :
    core (finalizeLoop t).1 = core (finalizeLoop u).1 ∧
      (finalizeLoop t).2 = (finalizeLoop u).2 :=
  finFold_congr (List.range 64) (t, 0) (u, 0) h rfl

theorem finalizeTag_congr {t u : GrainState} (h : core t = core u) :
    (finalizeTag t).2 = (finalizeTag u).2 := by
  rw [finalizeTag_snd, finalizeTag_snd, (finalizeLoop_congr h).2]

theorem xorBytes_cons (a b : Nat) (as bs : List Nat) :
    xorBytes (a :: as) (b :: bs) = (a ^^^ b) :: xorBytes as bs := rfl

theorem xorBytes_length (a b : List Nat) :
    (xorBytes a b).length = min a.length b.length := by
  simp [xorBytes]

theorem xorBytes_xor_cancel : ∀ (p ks : List Nat), p.length ≤ ks.length →
    xorBytes (xorBytes p ks) ks = p := by
  intro p
  induction p with
  | nil => intro ks h; rfl
  | cons a as ih =>
    intro ks h
    cases ks with
    | nil => simp at h
    | cons k kks =>
      rw [xorBytes_cons, xorBytes_cons, Nat.xor_cancel_right]
      rw [ih kks (by simpa using h)]

/-! ## Arithmetic facts about clocking and the warm-up register update -/

theorem clockRegs_fst_form (l n : Nat) :
    ∃ fb, fb < 2 ∧ (clockRegs l n).1 = ((l >>> 1) ||| (fb <<< 127)) &&& mask128 :=
  ⟨([0, 31, 46, 57, 89, 120, 127].map fun i => (l >>> i) &&& 1).sum % 2,
    Nat.mod_lt _ (by norm_num), rfl⟩

theorem clockRegs_snd_form (l n : Nat) :
    ∃ fb, fb < 2 ∧ (clockRegs l n).2.1 = ((n >>> 1) ||| (fb <<< 127)) &&& mask128 := by
  refine ⟨_, ?_, rfl⟩
  have h2 : (2 : Nat) = 2 ^ 1 := rfl
  rw [h2]
  apply Nat.xor_lt_two_pow _ (and_one_lt _)
  apply Nat.xor_lt_two_pow <;> exact Nat.mod_lt _ (by norm_num)

theorem clockRegs_ks_lt (l n : Nat) : (clockRegs l n).2.2 < 2 :=
  and_one_lt _

theorem blindStepVal (r fb ks : Nat) (hr : r < 2 ^ 128) (hfb : fb < 2) (hks : ks < 2) :
    (((((r >>> 1) ||| (fb <<< 127)) &&& mask128) <<< 1) ||| ks) &&& mask128 =
      2 * (r / 2) + ks := by
  have hd : r >>> 1 = r / 2 := by
    rw [Nat.shiftRight_eq_div_pow]
  have hdlt : r / 2 < 2 ^ 127 := by omega
  have h1 : (r >>> 1) ||| (fb <<< 127) = 2 ^ 127 * fb + r / 2 := by
    rw [hd, Nat.shiftLeft_eq, Nat.lor_comm, Nat.mul_comm fb (2 ^ 127),
      ← Nat.mul_add_lt_is_or hdlt]
  have hlt1 : 2 ^ 127 * fb + r / 2 < 2 ^ 128 := by
    have : 2 ^ 127 * fb ≤ 2 ^ 127 * 1 := Nat.mul_le_mul_left _ (by omega)
    simp at this
    have h127 : (2 : Nat) ^ 128 = 2 ^ 127 + 2 ^ 127 := by norm_num [Nat.pow_succ]
    omega
  have h2 : ((r >>> 1) ||| (fb <<< 127)) &&& mask128 = 2 ^ 127 * fb + r / 2 := by
    rw [h1, mask128_eq, Nat.and_pow_two_sub_one_eq_mod, Nat.mod_eq_of_lt hlt1]
  rw [h2]
  have h3 : (2 ^ 127 * fb + r / 2) <<< 1 ||| ks = 2 ^ 1 * (2 ^ 127 * fb + r / 2) + ks := by
    rw [Nat.shiftLeft_eq, Nat.mul_comm (2 ^ 127 * fb + r / 2) (2 ^ 1),
      ← Nat.mul_add_lt_is_or (show ks < 2 ^ 1 by omega)]
  rw [h3, mask128_eq, Nat.and_pow_two_sub_one_eq_mod]
  have h128 : (2 : Nat) ^ 128 = 2 * 2 ^ 127 := by norm_num [Nat.pow_succ, Nat.mul_comm]
  omega

/-! ## Register width bounds -/

theorem clockRegs_fst_lt (l n : Nat) : (clockRegs l n).1 < 2 ^ 128 :=
  masked_lt _

theorem clockRegs_snd_lt (l n : Nat) : (clockRegs l n).2.1 < 2 ^ 128 :=
  masked_lt _

theorem blindClock_lfsr_lt (s : GrainState) : (blindClock s).lfsr < 2 ^ 128 :=
  masked_lt _

theorem blindClock_nfsr_lt (s : GrainState) : (blindClock s).nfsr < 2 ^ 128 :=
  masked_lt _

theorem initStep_lfsr (s : GrainState) (i : Nat) :
    (initStep s i).lfsr = (blindClock s).lfsr := by
  unfold initStep
  split <;> rfl

theorem initStep_nfsr (s : GrainState) (i : Nat) :
    (initStep s i).nfsr = (blindClock s).nfsr := by
  unfold initStep
  split <;> rfl

theorem initRegisters_last (s : GrainState) :
    initRegisters s = initStep ((List.range 319).foldl initStep (initLoad s)) 319 := by
  unfold initRegisters
  rw [show (320 : Nat) = 319 + 1 from rfl, List.range_succ, List.foldl_append]
  rfl

theorem initRegisters_regs_lt (s : GrainState) :
    (initRegisters s).lfsr < 2 ^ 128 ∧ (initRegisters s).nfsr < 2 ^ 128 := by
  rw [initRegisters_last, initStep_lfsr, initStep_nfsr]
  exact ⟨blindClock_lfsr_lt _, blindClock_nfsr_lt _⟩

theorem finalizeStep_lfsr (p : GrainState × Nat) (i : Nat) :
    (finalizeStep p i).1.lfsr = (clock false p.1).1.lfsr := by
  unfold finalizeStep
  by_cases h : (clock false p.1).2 = 1 <;> simp [h]

theorem finalizeStep_nfsr (p : GrainState × Nat) (i : Nat) :
    (finalizeStep p i).1.nfsr = (clock false p.1).1.nfsr := by
  unfold finalizeStep
  by_cases h : (clock false p.1).2 = 1 <;> simp [h]

theorem finalizeLoop_last (s : GrainState) :
    finalizeLoop s = finalizeStep ((List.range 63).foldl finalizeStep (s, 0)) 63 := by
  unfold finalizeLoop
  rw [show (64 : Nat) = 63 + 1 from rfl, List.range_succ, List.foldl_append]
  rfl

theorem finalizeLoop_regs_lt (s : GrainState) :
    (finalizeLoop s).1.lfsr < 2 ^ 128 ∧ (finalizeLoop s).1.nfsr < 2 ^ 128 := by
  rw [finalizeLoop_last, finalizeStep_lfsr, finalizeStep_nfsr, clock_lfsr, clock_nfsr]
  exact ⟨clockRegs_fst_lt _ _, clockRegs_snd_lt _ _⟩

/-! ## Bit-level characterization of the register loading phase -/

theorem srcBit_lt (src : List Nat) (i : Nat) : srcBit src i < 2 :=
  and_one_lt _

theorem loadBits_succ (src : List Nat) (n r : Nat) :
    loadBits src (n + 1) r = loadBits src n r ||| (srcBit src n <<< n) := by
  unfold loadBits
  rw [List.range_succ, List.foldl_append]
  rfl

theorem testBit_pair (b : Nat) (hb : b < 2) (k : Nat) :
    b.testBit k = (decide (k = 0) && decide (b = 1)) := by
  cases k with
  | zero =>
    have hm : b % 2 = b := Nat.mod_eq_of_lt hb
    simp [Nat.testBit_zero, hm]
  | succ k =>
    have h1 : b.testBit (k + 1) = false := by
      apply Nat.testBit_lt_two_pow
      calc b < 2 ^ 1 := hb
        _ ≤ 2 ^ (k + 1) := Nat.pow_le_pow_right (by norm_num) (by omega)
    simp [h1]

theorem loadBits_testBit (src : List Nat) : ∀ (n r j : Nat),
    (loadBits src n r).testBit j =
      (r.testBit j || (decide (j < n) && decide (srcBit src j = 1))) := by
  intro n
  induction n with
  | zero =>
    intro r j
    simp [loadBits]
  | succ n ih =>
    intro r j
    rw [loadBits_succ, Nat.testBit_or, ih, Nat.testBit_shiftLeft,
      testBit_pair _ (srcBit_lt src n)]
    rcases Nat.lt_trichotomy j n with h | h | h
    · have h1 : ¬ n ≤ j := by omega
      have h2 : j < n + 1 := by omega
      simp [h, h1, h2]
    · subst h
      simp [Nat.lt_irrefl, Nat.lt_succ_self]
    · have h1 : ¬ j < n := by omega
      have h2 : ¬ j < n + 1 := by omega
      have h3 : ¬ (j - n = 0) := by omega
      simp [h1, h2, h3]

theorem initLoad_lfsr_eq (s : GrainState) :
    (initLoad s).lfsr = loadBits s.iv 96 s.lfsr ||| (((1 <<< 31) - 1) <<< 96) := rfl

theorem initLoad_lfsr_testBit (s : GrainState) (h0 : s.lfsr = 0) (j : Nat) :
    (initLoad s).lfsr.testBit j =
      ((decide (j < 96) && decide (srcBit s.iv j = 1)) ||
        (decide (96 ≤ j) && decide (j < 127))) := by
  rw [initLoad_lfsr_eq, Nat.testBit_or, loadBits_testBit, h0]
  simp only [Nat.zero_testBit, Bool.false_or]
  have h2 : ((1 <<< 31) - 1 : Nat) = 2 ^ 31 - 1 := by norm_num [Nat.shiftLeft_eq]
  rw [h2, Nat.testBit_shiftLeft, Nat.testBit_two_pow_sub_one]
  congr 1
  by_cases hj : 96 ≤ j
  · simp only [hj, ge_iff_le, decide_eq_true_eq]
    congr 1
    rw [decide_eq_decide]
    omega
  · simp [hj]

/-! ## Claim theorems -/

set_option maxRecDepth 4000 in
/-- C1: the claim states that the 8-byte tag returned by `_finalize` (and
hence by `encrypt`, `decrypt` and `get_tag`) is the low 64 bits of the
accumulator `accum` packed little-endian.  Evaluating the code at the
concrete key `00..0F`, IV `00..0B`, empty associated data and empty
message shows the returned tag differs from the low 64 bits of the final
accumulator: `_finalize` packs the 64 keystream bits `tag_bits`, and
`accum` is never read. -/
theorem c1_tag_is_not_accum :
    (get_tag s0 [] []).2 ≠ packLE64 ((get_tag s0 [] []).1.accum &&& ((1 <<< 64) - 1)) := by
  rw [get_tag_eq, rs0_eq]
  decide

/-- C2: decrypting the ciphertext produced by `encrypt` under the same
key, IV and associated data returns exactly the plaintext, for every
16-byte key, 12-byte IV, associated data and plaintext. -/
theorem c2_roundtrip (s : GrainState) (p ad : List Nat)
    (_hk : s.key.length = 16) (_hiv : s.iv.length = 12) :
    (decrypt s (encrypt s p ad).2.1 ad).2.1 = p := by
  have hct : (encrypt s p ad).2.1 =
      xorBytes p (generateKeystream (absorb (resetState s) ad) p.length (some p)).2 := rfl
  have hdec : ∀ x : List Nat, (decrypt s x ad).2.1 =
      xorBytes x (generateKeystream (absorb (resetState s) ad) x.length (some x)).2 :=
    fun _ => rfl
  rw [hdec, hct]
  have hlen :
      (xorBytes p (generateKeystream (absorb (resetState s) ad) p.length (some p)).2).length
        = p.length := by
    rw [xorBytes_length, genKS_len, Nat.min_self]
  rw [hlen]
  have hks := (genKS_congr p.length
    (some (xorBytes p (generateKeystream (absorb (resetState s) ad) p.length (some p)).2))
    (some p) (rfl : core (absorb (resetState s) ad) = core (absorb (resetState s) ad))).2
  rw [hks]
  exact xorBytes_xor_cancel p _ (by rw [genKS_len])

/-- Witness for C2 at the concrete key `00..0F`, IV `00..0B`, associated
data `[7]` and plaintext `[104, 105]`. -/
theorem c2_roundtrip_witness :
    s0.key.length = 16 ∧ s0.iv.length = 12 ∧
      (decrypt s0 (encrypt s0 [104, 105] [7]).2.1 [7]).2.1 = [104, 105] :=
  ⟨by decide, by decide, c2_roundtrip s0 [104, 105] [7] (by decide) (by decide)⟩

set_option maxRecDepth 4000 in
/-- C3: the claim states that flipping a ciphertext bit while holding the
tag fixed changes the computed tag, so decrypt-and-verify rejects.
Evaluating the code at key `00..0F` / IV `00..0B` with empty associated
data: the one-byte ciphertexts `[0]` and `[1]` (differing in exactly
bit 0) receive the identical tag from `get_tag`, so the flip cannot be
detected. -/
theorem c3_tamper_same_tag : (get_tag s0 [1] []).2 = (get_tag s0 [0] []).2 := by
  rw [get_tag_eq, get_tag_eq, rs0_eq]
  decide

set_option maxRecDepth 4000 in
/-- C4 counterexample: at the state reached after loading key `00..0F`
and IV `00..0B`, the first warm-up iteration of `initialize` does not
produce the register the claim describes (keystream bit XORed into the
feedback bit reinserted at bit 127): the code instead left-shifts the
clocked register and ORs the keystream bit into bit 0. -/
theorem c4_blind_counterexample :
    (blindClock (initLoad s0)).lfsr ≠ (blindClockClaim (initLoad s0)).lfsr := by
  rw [il0_eq]
  decide

/-- C4 amended: `initialize` does run exactly 320 warm-up iterations, but
each one left-shifts the just-clocked register and ORs the keystream bit
into bit 0; the net effect replaces bit 0 of the pre-clock register with
the keystream bit, keeps bits 1..127, and discards the freshly inserted
feedback bit. -/
theorem c4_blind_amended (s : GrainState) (hl : s.lfsr < 2 ^ 128) (hn : s.nfsr < 2 ^ 128) :
    (blindClock s).lfsr = 2 * (s.lfsr / 2) + (clock false s).2 ∧
      (blindClock s).nfsr = 2 * (s.nfsr / 2) + (clock false s).2 := by
  obtain ⟨fb, hfb, hform⟩ := clockRegs_fst_form s.lfsr s.nfsr
  obtain ⟨gb, hgb, hgform⟩ := clockRegs_snd_form s.lfsr s.nfsr
  constructor
  · have h1 : (blindClock s).lfsr =
        (((clockRegs s.lfsr s.nfsr).1 <<< 1) ||| (clockRegs s.lfsr s.nfsr).2.2) &&& mask128 :=
      rfl
    rw [h1, hform, clock_ks]
    exact blindStepVal s.lfsr fb _ hl hfb (clockRegs_ks_lt s.lfsr s.nfsr)
  · have h1 : (blindClock s).nfsr =
        (((clockRegs s.lfsr s.nfsr).2.1 <<< 1) ||| (clockRegs s.lfsr s.nfsr).2.2) &&& mask128 :=
      rfl
    rw [h1, hgform, clock_ks]
    exact blindStepVal s.nfsr gb _ hn hgb (clockRegs_ks_lt s.lfsr s.nfsr)

/-- Witness for the amended C4 at a small concrete state. -/
theorem c4_blind_amended_witness :
    (⟨[], [], 6, 7, 0, 0⟩ : GrainState).lfsr < 2 ^ 128 ∧
      (⟨[], [], 6, 7, 0, 0⟩ : GrainState).nfsr < 2 ^ 128 ∧
      ((blindClock ⟨[], [], 6, 7, 0, 0⟩).lfsr =
          2 * ((⟨[], [], 6, 7, 0, 0⟩ : GrainState).lfsr / 2) +
            (clock false ⟨[], [], 6, 7, 0, 0⟩).2 ∧
        (blindClock ⟨[], [], 6, 7, 0, 0⟩).nfsr =
          2 * ((⟨[], [], 6, 7, 0, 0⟩ : GrainState).nfsr / 2) +
            (clock false ⟨[], [], 6, 7, 0, 0⟩).2) :=
  ⟨by decide, by decide, c4_blind_amended ⟨[], [], 6, 7, 0, 0⟩ (by decide) (by decide)⟩

set_option maxRecDepth 4000 in
/-- C5 counterexample: the claim says LFSR bits 96..127 are all ones
after the IV is loaded; with key `00..0F` and IV `00..0B`, bit 127 is 0
(the padding constant is `(1 << 31) - 1`, only 31 ones). -/
theorem c5_pad_counterexample :
    ¬ (∀ i, 96 ≤ i → i ≤ 127 → (initLoad s0).lfsr.testBit i = true) := by
  intro h
  have h127 := h 127 (by norm_num) (by norm_num)
  rw [il0_eq] at h127
  exact absurd h127 (by decide)

/-- C5 amended: after the loading phase on a zeroed LFSR, bits 0..95 hold
the IV bits (LSB-first per byte), bits 96..126 are all ones, and bit 127
is 0. -/
theorem c5_pad_amended (s : GrainState) (h0 : s.lfsr = 0) :
    (∀ i, i < 96 → ((initLoad s).lfsr.testBit i = true ↔ srcBit s.iv i = 1)) ∧
      (∀ i, 96 ≤ i → i ≤ 126 → (initLoad s).lfsr.testBit i = true) ∧
      (initLoad s).lfsr.testBit 127 = false := by
  refine ⟨fun i hi => ?_, fun i h1 h2 => ?_, ?_⟩
  · rw [initLoad_lfsr_testBit s h0]
    have h3 : ¬ 96 ≤ i := by omega
    simp [hi, h3]
  · rw [initLoad_lfsr_testBit s h0]
    have h3 : ¬ i < 96 := by omega
    have h4 : i < 127 := by omega
    simp [h1, h3, h4]
  · rw [initLoad_lfsr_testBit s h0]
    simp

/-- Witness for the amended C5 at the concrete zeroed state `s0`. -/
theorem c5_pad_amended_witness :
    s0.lfsr = 0 ∧
      ((∀ i, i < 96 → ((initLoad s0).lfsr.testBit i = true ↔ srcBit s0.iv i = 1)) ∧
        (∀ i, 96 ≤ i → i ≤ 126 → (initLoad s0).lfsr.testBit i = true) ∧
        (initLoad s0).lfsr.testBit 127 = false) :=
  ⟨rfl, c5_pad_amended s0 rfl⟩

set_option maxRecDepth 4000 in
/-- C6 counterexample: the claim states the accumulator is XORed with the
pre-clock `sr` for message bits too.  At the freshly reset state for key
`00..0F` / IV `00..0B`, absorbing the message byte `1` through
`_generate_keystream` leaves an accumulator different from
`accum XOR (pre-clock sr)`: the code clocks first and gates with the
post-clock `sr`. -/
theorem c6_gate_counterexample :
    (genByte (resetState s0) (some 1)).1.accum ≠
      (resetState s0).accum ^^^ (resetState s0).sr := by
  rw [rs0_eq]
  decide

/-- C6 amended: an associated-data bit equal to 1 XORs the pre-clock `sr`
into the accumulator, but a message bit gates the accumulator only after
the clock has advanced the state: the value XORed in is the post-clock
`sr`. -/
theorem c6_gate_amended (s : GrainState) (b x j : Nat) :
    (adBitStep s 1).accum = s.accum ^^^ s.sr ∧
      (genBitStep (some b) (s, x) j).1.accum =
        (if (b >>> j) &&& 1 = 1 then s.accum ^^^ (clock true s).1.sr else s.accum) := by
  constructor
  · rfl
  · unfold genBitStep
    simp only [Nat.and_one_is_mod]
    by_cases h : (b >>> j) % 2 = 1 <;> simp [h, clock_accum]

/-- C7: constructing with a key whose length is not 16 or an IV whose
length is not 12 fails with the corresponding error before any state is
built, and construction succeeds exactly when both lengths are right. -/
theorem c7_construct (key iv : List Nat) :
    ((∃ s, mkCipher key iv = Except.ok s) ↔ (key.length = 16 ∧ iv.length = 12)) ∧
      (mkCipher key iv = Except.error "Key must be 16 bytes (128 bits)" ↔ key.length ≠ 16) ∧
      (mkCipher key iv = Except.error "IV must be 12 bytes (96 bits)" ↔
        (key.length = 16 ∧ iv.length ≠ 12)) := by
  unfold mkCipher
  by_cases hk : key.length = 16 <;> by_cases hi : iv.length = 12 <;> simp [hk, hi]

/-- C8: with the key and IV fixed, the tag computed by `get_tag` — and the
tag component returned by `encrypt` and `decrypt` — depends only on the
byte lengths of the associated data and of the message, not on their
contents. -/
theorem c8_tag_depends_only_on_lengths (s : GrainState) (ad1 ad2 m1 m2 : List Nat)
    (had : ad1.length = ad2.length) (hm : m1.length = m2.length) :
    (get_tag s m1 ad1).2 = (get_tag s m2 ad2).2 ∧
      (encrypt s m1 ad1).2.2 = (encrypt s m2 ad2).2.2 ∧
      (decrypt s m1 ad1).2.2 = (decrypt s m2 ad2).2.2 := by
  have hc0 : core (absorb (resetState s) ad1) = core (absorb (resetState s) ad2) :=
    absorb_congr ad1 ad2 had rfl
  refine ⟨?_, ?_, ?_⟩
  · rw [get_tag_eq, get_tag_eq]
    exact finalizeTag_congr (absorb_congr m1 m2 hm hc0)
  · have he : ∀ (x ad : List Nat), (encrypt s x ad).2.2 =
        (finalizeTag (generateKeystream (absorb (resetState s) ad) x.length (some x)).1).2 :=
      fun _ _ => rfl
    rw [he, he]
    apply finalizeTag_congr
    rw [hm]
    exact (genKS_congr m2.length (some m1) (some m2) hc0).1
  · have hd : ∀ (x ad : List Nat), (decrypt s x ad).2.2 =
        (finalizeTag (generateKeystream (absorb (resetState s) ad) x.length (some x)).1).2 :=
      fun _ _ => rfl
    rw [hd, hd]
    apply finalizeTag_congr
    rw [hm]
    exact (genKS_congr m2.length (some m1) (some m2) hc0).1

/-- Witness for C8 at concrete equal-length inputs with different
contents. -/
theorem c8_witness :
    ([0] : List Nat).length = ([255] : List Nat).length ∧
      ([1, 2] : List Nat).length = ([3, 4] : List Nat).length ∧
      ((get_tag s0 [1, 2] [0]).2 = (get_tag s0 [3, 4] [255]).2 ∧
        (encrypt s0 [1, 2] [0]).2.2 = (encrypt s0 [3, 4] [255]).2.2 ∧
        (decrypt s0 [1, 2] [0]).2.2 = (decrypt s0 [3, 4] [255]).2.2) :=
  ⟨by decide, by decide,
    c8_tag_depends_only_on_lengths s0 [0] [255] [1, 2] [3, 4] (by decide) (by decide)⟩

/-- C9: `decrypt` and `encrypt` are extensionally equal: on every input
byte string and associated data, from every state, they return exactly
the same (state, output bytes, tag) triple. -/
theorem c9_decrypt_eq_encrypt (s : GrainState) (x ad : List Nat) :
    decrypt s x ad = encrypt s x ad := rfl

/-- C10: in every state reachable from construction by any sequence of
`encrypt`, `decrypt` and `get_tag` calls, both registers are strictly
below `2 ^ 128`. -/
theorem c10_registers_lt (key iv : List Nat) (s : GrainState) (h : Reachable key iv s) :
    s.lfsr < 2 ^ 128 ∧ s.nfsr < 2 ^ 128 := by
  induction h with
  | base t ht =>
    unfold mkCipher at ht
    by_cases hk : key.length = 16
    · by_cases hi : iv.length = 12
      · simp only [hk, hi] at ht
        simp at ht
        subst ht
        exact initRegisters_regs_lt _
      · simp [hk, hi] at ht
    · simp [hk] at ht
  | enc t p ad hr ih =>
    rw [encrypt_fst]
    exact finalizeLoop_regs_lt _
  | dec t c ad hr ih =>
    rw [decrypt_fst]
    exact finalizeLoop_regs_lt _
  | tag t c ad hr ih =>
    rw [get_tag_fst]
    exact finalizeLoop_regs_lt _

/-- Witness for C10: the state constructed from key `00..0F` and IV
`00..0B` is reachable and satisfies the width bounds. -/
theorem c10_witness :
    (initRegisters s0).lfsr < 2 ^ 128 ∧ (initRegisters s0).nfsr < 2 ^ 128 :=
  c10_registers_lt key0 iv0 (initRegisters s0) (Reachable.base (initRegisters s0) rfl)
